import Mathlib

/-!
Shallow embedding of the `futurist` periodic-task engine
(`futurist/periodics.py` and `futurist/_futures.py`).

Times, spacings and runtimes are modelled as rationals (`ℚ`); Python's
floats are used by the source only for ordinary field arithmetic,
`max`, and `math.fmod`, all of which are exact on the values the
theorems below evaluate.  Counters are `ℕ`.  Fallible Python code
(raising `ValueError` / `RuntimeError` / `ZeroDivisionError`) is
embedded as `Except`-returning functions.  The worker's concurrent
dispatch loop is embedded as a small-step transition relation on an
explicit worker state; the set of futures submitted but not yet folded
by their completion callback is made explicit as an `_in_flight` list
(in the source it is implicit in the pending `Future` objects).
-/

/-- Per-callable metrics dictionary (`PeriodicWorker._INITIAL_METRICS`
and the `cb_metrics` dictionaries of `periodics.py`). -/
structure Metrics where
  runs : ℕ
  elapsed : ℚ
  elapsed_waiting : ℚ
  failures : ℕ
  successes : ℕ
deriving DecidableEq, Repr

/-- `PeriodicWorker._INITIAL_METRICS`: every metric starts at zero. -/
def _INITIAL_METRICS : Metrics :=
  { runs := 0, elapsed := 0, elapsed_waiting := 0, failures := 0, successes := 0 }

/-- The metadata the `periodic` decorator attaches to a callable:
`_is_periodic` (the `enabled` flag), `_periodic_spacing` and
`_periodic_run_immediately`.  A value of this type stands for a
correctly decorated callable. -/
structure Callable where
  is_periodic : Bool
  periodic_spacing : ℚ
  periodic_run_immediately : Bool
deriving DecidableEq, Repr

instance : Inhabited Callable := ⟨⟨true, 1, false⟩⟩

/-- Truncated-toward-zero integer part of a rational, matching how C
(and hence Python's `math.fmod`) truncates the quotient. -/
def ratTrunc (q : ℚ) : ℤ := if 0 ≤ q then ⌊q⌋ else ⌈q⌉

/-- Python's `math.fmod x y` (for `y ≠ 0`): `x - y * trunc (x / y)`,
so the result carries the sign of `x` and has magnitude below `|y|`. -/
def fmod (x y : ℚ) : ℚ := x - y * (ratTrunc (x / y) : ℚ)

/-- `periodics._last_finished_strategy`. -/
def _last_finished_strategy (cb : Callable) (started_at finished_at : ℚ)
    (_metrics : Metrics) : ℚ :=
  finished_at + cb.periodic_spacing

/-- `periodics._last_started_strategy`. -/
def _last_started_strategy (cb : Callable) (started_at finished_at : ℚ)
    (_metrics : Metrics) : ℚ :=
  started_at + cb.periodic_spacing

/-- `periodics._aligned_last_finished_strategy`. -/
def _aligned_last_finished_strategy (cb : Callable) (started_at finished_at : ℚ)
    (_metrics : Metrics) : ℚ :=
  (finished_at - fmod finished_at cb.periodic_spacing) + cb.periodic_spacing

/-- `periodics._now_plus_periodicity` (the initial strategy). -/
def _now_plus_periodicity (cb : Callable) (now : ℚ) : ℚ :=
  cb.periodic_spacing + now

/-- Error kinds raised by `PeriodicWorker` construction, `start()` and
`_add_jitter` (`ValueError` for an unknown strategy or a jitter
percentage outside `[0, 1]` — the spec's ConfigError kind — and
`RuntimeError` for the two `start()` refusals). -/
inductive WorkerError where
  | config : WorkerError
  | emptyCallables : WorkerError
  | doubleStart : WorkerError
deriving DecidableEq, Repr

/-- `TypeError`, raised by Python when a call's arguments cannot be
bound to the callee's parameters. -/
inductive PyCallError where
  | typeError : PyCallError
deriving DecidableEq, Repr

/-- `PeriodicWorker.DEFAULT_JITTER = fractions.Fraction(5, 100)`. -/
def DEFAULT_JITTER : ℚ := 5 / 100

/-- A post-strategy callable as stored in `BUILT_IN_STRATEGIES`:
either a plain strategy function with the four parameters
`(cb, started_at, finished_at, metrics)`, or the `decorator` closure
produced by `_add_jitter`, which has the three parameters
`(cb, metrics, now=None)` and closes over the jitter percentage and
the wrapped function. -/
inductive PostCallable where
  | plain : (Callable → ℚ → ℚ → Metrics → ℚ) → PostCallable
  | jitter_wrapped : ℚ → (Callable → ℚ → ℚ → Metrics → ℚ) → PostCallable

/-- Invoking a stored post strategy the way `_on_done` does:
`self._schedule_strategy(cb, started_at, finished_at, cb_metrics)`,
four positional arguments (`r` stands for the `random.random()` draw
a jitter body would use).  A plain strategy computes its deadline; the
jitter `decorator` has only the three parameters
`(cb, metrics, now=None)`, so binding four positional arguments
raises `TypeError` before its body (which would add
`spacing * (r * max_percent_jitter)` to `func(cb, metrics, now=now)`)
can run at all. -/
def PostCallable.call_post (p : PostCallable) (_r : ℚ) (cb : Callable)
    (started_at finished_at : ℚ) (metrics : Metrics) :
    Except PyCallError ℚ :=
  match p with
  | .plain func => .ok (func cb started_at finished_at metrics)
  | .jitter_wrapped _max_percent_jitter _func => .error .typeError

/-- `periodics._add_jitter`: validates `max_percent_jitter ∈ [0, 1]`
(`ValueError` otherwise, the ConfigError kind) and returns the
wrapping `wrapper`, which turns a strategy `func` into the
three-parameter `decorator(cb, metrics, now=None)` closure recorded by
`PostCallable.jitter_wrapped`; `PostCallable.call_post` gives that
closure's behavior under the worker's invocation. -/
def _add_jitter (max_percent_jitter : ℚ) :
    Except WorkerError ((Callable → ℚ → ℚ → Metrics → ℚ) → PostCallable) :=
  if 1 < max_percent_jitter ∨ max_percent_jitter < 0 then .error .config
  else .ok (fun func => .jitter_wrapped max_percent_jitter func)

/-- The post-strategy calling convention of the worker machine: what
`_on_done` supplies — the random draw (for jitter bodies) and the four
positional arguments `(cb, started_at, finished_at, metrics)`. -/
abbrev PostStrategy := ℚ → Callable → ℚ → ℚ → Metrics → ℚ

/-- An initial-schedule strategy. -/
abbrev InitialStrategy := Callable → ℚ → ℚ

/-- `PeriodicWorker.BUILT_IN_STRATEGIES`: name to
`(post_strategy, initial_strategy)`.  The jitter entries hold the
`decorator` closures built by `_add_jitter(DEFAULT_JITTER)(...)` at
class-body evaluation time (the `[0, 1]` validation passes). -/
def BUILT_IN_STRATEGIES : List (String × (PostCallable × InitialStrategy)) :=
  [("last_started",
      (.plain _last_started_strategy, _now_plus_periodicity)),
   ("last_started_jitter",
      (.jitter_wrapped DEFAULT_JITTER _last_started_strategy,
       _now_plus_periodicity)),
   ("last_finished",
      (.plain _last_finished_strategy, _now_plus_periodicity)),
   ("last_finished_jitter",
      (.jitter_wrapped DEFAULT_JITTER _last_finished_strategy,
       _now_plus_periodicity)),
   ("aligned_last_finished",
      (.plain _aligned_last_finished_strategy, _now_plus_periodicity)),
   ("aligned_last_finished_jitter",
      (.jitter_wrapped DEFAULT_JITTER _aligned_last_finished_strategy,
       _now_plus_periodicity))]

/-- `ZeroDivisionError`, raised by Python's `/` on a zero divisor. -/
inductive ZeroDivisionError where
  | divisionByZero : ZeroDivisionError
deriving DecidableEq, Repr

/-- Python's true division `a / b`: raises `ZeroDivisionError` iff the
divisor is zero, otherwise returns the exact quotient. -/
def pydiv (a b : ℚ) : Except ZeroDivisionError ℚ :=
  if b = 0 then .error .divisionByZero else .ok (a / b)

/-- `futurist.ExecutorStatistics` (immutable value object in
`_futures.py`). -/
structure ExecutorStatistics where
  failures : ℕ
  executed : ℕ
  runtime : ℚ
  cancelled : ℕ
deriving DecidableEq, Repr

/-- The zero-argument `ExecutorStatistics()` constructor defaults. -/
def ExecutorStatistics.initial : ExecutorStatistics :=
  { failures := 0, executed := 0, runtime := 0, cancelled := 0 }

/-- `ExecutorStatistics.average_runtime`: `self._runtime / self._executed`,
an unguarded division (`ZeroDivisionError` when `executed = 0`). -/
def ExecutorStatistics.average_runtime (s : ExecutorStatistics) :
    Except ZeroDivisionError ℚ :=
  pydiv s.runtime (s.executed : ℚ)

/-- A terminal future as observed by `_Gatherer._capture_stats`:
whether `fut.cancelled()` holds and the value of `fut.exception()`. -/
structure Fut where
  cancelled : Bool
  exception : Option Unit
deriving DecidableEq, Repr

/-- `_Gatherer._capture_stats`: folds one terminal future into the
statistics value (the source computes `elapsed` from `_utils.now()`,
passed here as `now`, and replaces `self._stats` with the newly built
value under `self._stats_lock`; the lock itself is not modelled). -/
def _capture_stats (now started_at : ℚ) (fut : Fut)
    (stats : ExecutorStatistics) : ExecutorStatistics :=
  let elapsed : ℚ := max 0 (now - started_at)
  let failures := stats.failures
  let executed := stats.executed
  let runtime := stats.runtime
  let cancelled := stats.cancelled
  if fut.cancelled then
    { failures := failures, executed := executed, runtime := runtime,
      cancelled := cancelled + 1 }
  else
    let executed := executed + 1
    let failures := if fut.exception.isSome then failures + 1 else failures
    let runtime := runtime + elapsed
    { failures := failures, executed := executed, runtime := runtime,
      cancelled := cancelled }

/-- A sequence of completion folds performed by the gatherer, one per
terminal handle, each carrying its `(now, started_at, fut)` data. -/
def _capture_stats_all (events : List (ℚ × ℚ × Fut))
    (stats : ExecutorStatistics) : ExecutorStatistics :=
  events.foldl (fun acc e => _capture_stats e.1 e.2.1 e.2.2 acc) stats

/-- `Watcher.average_elapsed`:
`self._metrics['elapsed'] / self._metrics['runs']`, unguarded. -/
def Watcher.average_elapsed (m : Metrics) : Except ZeroDivisionError ℚ :=
  pydiv m.elapsed (m.runs : ℚ)

/-- `Watcher.average_elapsed_waiting`:
`self._metrics['elapsed_waiting'] / self._metrics['runs']`, unguarded. -/
def Watcher.average_elapsed_waiting (m : Metrics) : Except ZeroDivisionError ℚ :=
  pydiv m.elapsed_waiting (m.runs : ℚ)

/-- The lexicographic order `heapq` uses on `(next_run, index)` tuples. -/
def entryLE (a b : ℚ × ℕ) : Prop :=
  a.1 < b.1 ∨ (a.1 = b.1 ∧ a.2 ≤ b.2)

instance : DecidableRel entryLE := fun a b =>
  inferInstanceAs (Decidable (a.1 < b.1 ∨ (a.1 = b.1 ∧ a.2 ≤ b.2)))

/-- `periodics._Schedule`: the heap of `(next_run, index)` pairs,
represented by its sorted element list (`heapq` maintains the same
multiset; `heappop` returns the minimum, which here is the head). -/
structure _Schedule where
  _ordering : List (ℚ × ℕ)
deriving DecidableEq, Repr

/-- `_Schedule.push`. -/
def _Schedule.push (s : _Schedule) (next_run : ℚ) (index : ℕ) : _Schedule :=
  ⟨List.orderedInsert entryLE (next_run, index) s._ordering⟩

/-- `_Schedule.__len__`. -/
def _Schedule.length (s : _Schedule) : ℕ := s._ordering.length

/-- `_Schedule.pop` (`heapq.heappop`): the minimum entry and the rest;
`none` models the `IndexError` on an empty heap (never reached by the
worker loop, which only pops under a non-empty guard). -/
def _Schedule.pop (s : _Schedule) : Option ((ℚ × ℕ) × _Schedule) :=
  match s._ordering with
  | [] => none
  | e :: rest => some (e, ⟨rest⟩)

/-- Helper for `periodics._build`: walks the enumerated callables from
index `i`, queueing `run_immediately` ones and pushing an initial
deadline `next_run_scheduler cb now` for the others. -/
def _buildGo (now : ℚ) (next_run_scheduler : InitialStrategy) :
    ℕ → List Callable → List ℕ × _Schedule
  | _, [] => ([], ⟨[]⟩)
  | i, cb :: rest =>
    if cb.periodic_run_immediately then
      (i :: (_buildGo now next_run_scheduler (i + 1) rest).1,
       (_buildGo now next_run_scheduler (i + 1) rest).2)
    else
      ((_buildGo now next_run_scheduler (i + 1) rest).1,
       (_buildGo now next_run_scheduler (i + 1) rest).2.push
         (next_run_scheduler cb now) i)

/-- `periodics._build`: produces `(immediates, schedule)` for the given
callables (the source reads `now_func()` lazily, at most once; the
value is passed here as `now`). -/
def _build (now : ℚ) (callables : List Callable)
    (next_run_scheduler : InitialStrategy) : List ℕ × _Schedule :=
  _buildGo now next_run_scheduler 0 callables

/-- The state of a `PeriodicWorker`.  `_watchers` holds the parallel
per-callable metrics records (each `Watcher` of the source is a live
read-only view of the record at its index).  `_in_flight` lists the
indices of runs submitted to the executor whose completion callback
has not yet executed; it is implicit in the source. -/
structure PeriodicWorker where
  _tombstone : Bool
  _active : Bool
  _dead : Bool
  _watchers : List Metrics
  _callables : List Callable
  _immediates : List ℕ
  _schedule : _Schedule
  _in_flight : List ℕ
deriving DecidableEq, Repr

/-- `PeriodicWorker.__len__`. -/
def PeriodicWorker.size (w : PeriodicWorker) : ℕ := w._callables.length

/-- The state-building part of `PeriodicWorker.__init__`, after the
strategy pair has been selected: keeps the callables whose
`_is_periodic` flag is set (each paired with fresh zero metrics) and
builds `(immediates, schedule)` with `_build`.  Events start clear. -/
def PeriodicWorker.make (initial : InitialStrategy) (now : ℚ)
    (callables : List Callable) : PeriodicWorker :=
  let kept := callables.filter (fun cb => cb.is_periodic)
  let built := _build now kept initial
  { _tombstone := false, _active := false, _dead := false,
    _watchers := kept.map (fun _ => _INITIAL_METRICS),
    _callables := kept,
    _immediates := built.1, _schedule := built.2,
    _in_flight := [] }

/-- `PeriodicWorker.__init__`: looks `schedule_strategy` up in
`BUILT_IN_STRATEGIES` (a missing name raises `ValueError`, the
ConfigError kind) and builds the initial worker state; the selected
`(post, initial)` pair is returned alongside the state. -/
def PeriodicWorker.init (callables : List Callable)
    (schedule_strategy : String) (now : ℚ) :
    Except WorkerError (PeriodicWorker × (PostCallable × InitialStrategy)) :=
  match List.lookup schedule_strategy BUILT_IN_STRATEGIES with
  | none => .error .config
  | some strat => .ok (PeriodicWorker.make strat.2 now callables, strat)

/-- `PeriodicWorker.add` for a correctly decorated callable: returns
the new watcher (identified by its slot index) unless the callable is
not enabled, in which case `None` is returned and nothing changes. -/
def PeriodicWorker.add (initial : InitialStrategy) (now : ℚ)
    (w : PeriodicWorker) (cb : Callable) : Option ℕ × PeriodicWorker :=
  if !cb.is_periodic then (none, w)
  else
    let cb_index := w._callables.length
    let w1 := { w with _callables := w._callables ++ [cb],
                       _watchers := w._watchers ++ [_INITIAL_METRICS] }
    if cb.periodic_run_immediately then
      (some cb_index, { w1 with _immediates := w1._immediates ++ [cb_index] })
    else
      (some cb_index,
       { w1 with _schedule := w1._schedule.push (initial cb now) cb_index })

/-- `PeriodicWorker.stop`: sets the tombstone. -/
def PeriodicWorker.stop (w : PeriodicWorker) : PeriodicWorker :=
  { w with _tombstone := true }

/-- The guard clauses and state changes of `PeriodicWorker.start`
before the dispatch loop runs: raises `RuntimeError` when there are no
callables (unless `allow_empty`) or when already active; otherwise
clears `dead`, sets `active` and enters the loop.  Notably there is no
tombstone check: a start after `stop()` succeeds and the loop then
exits at once. -/
def PeriodicWorker.start (w : PeriodicWorker) (allow_empty : Bool) :
    Except WorkerError PeriodicWorker :=
  if w._callables.isEmpty && !allow_empty then .error .emptyCallables
  else if w._active then .error .doubleStart
  else .ok { w with _dead := false, _active := true }

/-- `PeriodicWorker.reset`: clears the tombstone and dead events, zeroes
every metric of every record in place (the watchers observe the same
records, so they see the zeroes), and rebuilds `(immediates, schedule)`
with `_build`. -/
def PeriodicWorker.reset (initial : InitialStrategy) (now : ℚ)
    (w : PeriodicWorker) : PeriodicWorker :=
  let built := _build now w._callables initial
  { w with _tombstone := false, _dead := false,
           _watchers := w._watchers.map (fun _ => _INITIAL_METRICS),
           _immediates := built.1, _schedule := built.2 }

/-- The completion callback `_on_done` of `PeriodicWorker._run`: reads
`(started_at, finished_at, failure)` from the finished future, updates
the metrics record of slot `index`, computes the next deadline with
the post strategy (given the draw `r` used by jitter strategies) and
pushes it onto the schedule.  The run leaves the in-flight set.  The
`kind`/`cb_name` arguments of the source only affect logging and are
omitted; `cb` is recovered from the slot. -/
def _on_done (post : PostStrategy) (r : ℚ) (index : ℕ)
    (submitted_at started_at finished_at : ℚ) (failure : Bool)
    (w : PeriodicWorker) : PeriodicWorker :=
  match w._watchers[index]?, w._callables[index]? with
  | some cb_metrics, some cb =>
    let m1 := { cb_metrics with runs := cb_metrics.runs + 1 }
    let m2 := if failure then { m1 with failures := m1.failures + 1 }
              else { m1 with successes := m1.successes + 1 }
    let elapsed : ℚ := max 0 (finished_at - started_at)
    let elapsed_waiting : ℚ := max 0 (started_at - submitted_at)
    let m3 := { m2 with elapsed := m2.elapsed + elapsed,
                        elapsed_waiting := m2.elapsed_waiting + elapsed_waiting }
    let next_run := post r cb started_at finished_at m3
    { w with _watchers := w._watchers.set index m3,
             _schedule := w._schedule.push next_run index,
             _in_flight := w._in_flight.erase index }
  | _, _ => w

/-- One transition of the worker system: the caller-facing operations
(`start`, `stop`, `add`, `reset`), the two submission phases of the
dispatch loop, the loop exiting on a set tombstone, and a completion
callback firing for an in-flight run.  Dispatch steps carry the loop's
guards: the loop body runs only while active with a clear tombstone,
and the scheduled phase pops only when no immediate is pending and the
popped deadline is due. -/
inductive Step (post : PostStrategy) (initial : InitialStrategy) :
    PeriodicWorker → PeriodicWorker → Prop where
  | start (w w' : PeriodicWorker) (allow_empty : Bool) :
      w.start allow_empty = .ok w' → Step post initial w w'
  | loopExit (w : PeriodicWorker) :
      w._tombstone = true → w._active = true →
      Step post initial w { w with _dead := true, _active := false }
  | stop (w : PeriodicWorker) : Step post initial w w.stop
  | add (w w' : PeriodicWorker) (cb : Callable) (now : ℚ) (i : ℕ) :
      PeriodicWorker.add initial now w cb = (some i, w') →
      Step post initial w w'
  | reset (w : PeriodicWorker) (now : ℚ) :
      w._active = false → w._in_flight = [] →
      Step post initial w (PeriodicWorker.reset initial now w)
  | dispatchImmediate (w : PeriodicWorker) (i : ℕ) (rest : List ℕ) :
      w._active = true → w._tombstone = false →
      w._immediates = i :: rest →
      Step post initial w
        { w with _immediates := rest, _in_flight := w._in_flight ++ [i] }
  | dispatchScheduled (w : PeriodicWorker) (now next_run : ℚ) (i : ℕ)
      (s' : _Schedule) :
      w._active = true → w._tombstone = false → w._immediates = [] →
      w._schedule.pop = some ((next_run, i), s') → next_run ≤ now →
      Step post initial w
        { w with _schedule := s', _in_flight := w._in_flight ++ [i] }
  | complete (w : PeriodicWorker) (r : ℚ) (i : ℕ)
      (submitted_at started_at finished_at : ℚ) (failure : Bool) :
      i ∈ w._in_flight → 0 ≤ r → r < 1 →
      Step post initial w
        (_on_done post r i submitted_at started_at finished_at failure w)

/-- Worker states reachable from construction via `Step`. -/
inductive Reachable (post : PostStrategy) (initial : InitialStrategy) :
    PeriodicWorker → Prop where
  | init (callables : List Callable) (now : ℚ) :
      Reachable post initial (PeriodicWorker.make initial now callables)
  | step {w w' : PeriodicWorker} :
      Reachable post initial w → Step post initial w w' →
      Reachable post initial w'

/-- The multiset of callable slots currently owned by the three
containers: the schedule heap, the immediates queue, and the in-flight
runs. -/
def slots (w : PeriodicWorker) : List ℕ :=
  w._schedule._ordering.map Prod.snd ++ w._immediates ++ w._in_flight

/-- The worker's structural invariant: one metrics record per callable;
each registered slot is owned by exactly one container (so the slot
multiset is a permutation of `range n`); the immediates queue only
holds `run_immediately` slots; and every metrics record satisfies
`runs = successes + failures`. -/
structure WorkerInv (w : PeriodicWorker) : Prop where
  watchers_len : w._watchers.length = w._callables.length
  slots_perm : (slots w).Perm (List.range w._callables.length)
  imms_flag : ∀ i ∈ w._immediates, ∃ cb, w._callables[i]? = some cb ∧
      cb.periodic_run_immediately = true
  metrics_ok : ∀ m ∈ w._watchers, m.runs = m.successes + m.failures

/-- The `last_started` strategy lifted to the worker machine's
post-strategy convention (used to instantiate the machine in concrete
witnesses). -/
def post0 : PostStrategy := fun _r => _last_started_strategy

/-- A concrete enabled, non-immediate callable with spacing 1. -/
def cbPlain : Callable := ⟨true, 1, false⟩

/-- A concrete enabled `run_immediately` callable with spacing 2. -/
def cbImmediate : Callable := ⟨true, 2, true⟩

/-- A concrete disabled (`enabled=False`) decorated callable. -/
def cbDisabled : Callable := ⟨false, 1, false⟩

/-- A worker holding `cbPlain`, built at time 0 with the `last_started`
pair, on which `stop()` was called and whose dispatch loop then
exited: the state reached by `make → start → stop → loop exit`. -/
def stoppedWorkerExample : PeriodicWorker :=
  { _tombstone := true, _active := false, _dead := true,
    _watchers := [_INITIAL_METRICS], _callables := [cbPlain],
    _immediates := [], _schedule := ⟨[(1, 0)]⟩, _in_flight := [] }

/-- A two-callable worker (one immediate, one scheduled) built at time
0 with the `last_started` strategy pair. -/
def twoWorkerExample : PeriodicWorker :=
  PeriodicWorker.make _now_plus_periodicity 0 [cbPlain, cbImmediate]

lemma fmod_lt_of_pos (x h : ℚ) (hpos : 0 < h) : fmod x h < h := by
  unfold fmod ratTrunc
  by_cases hq : 0 ≤ x / h
  · rw [if_pos hq]
    have h1 : x / h - 1 < (⌊x / h⌋ : ℚ) := Int.sub_one_lt_floor (x / h)
    have h2 : h * (x / h - 1) < h * (⌊x / h⌋ : ℚ) := mul_lt_mul_of_pos_left h1 hpos
    have h3 : h * (x / h) = x := by field_simp
    have h4 : h * (x / h - 1) = x - h := by rw [mul_sub, h3]; ring
    linarith
  · rw [if_neg hq]
    have h1 : x / h ≤ (⌈x / h⌉ : ℚ) := Int.le_ceil (x / h)
    have h2 : h * (x / h) ≤ h * (⌈x / h⌉ : ℚ) :=
      mul_le_mul_of_nonneg_left h1 (le_of_lt hpos)
    have h3 : h * (x / h) = x := by field_simp
    linarith

lemma aligned_ge_finished (cb : Callable) (started_at finished_at : ℚ)
    (m : Metrics) (hpos : 0 < cb.periodic_spacing) :
    finished_at ≤ _aligned_last_finished_strategy cb started_at finished_at m := by
  have := fmod_lt_of_pos finished_at cb.periodic_spacing hpos
  unfold _aligned_last_finished_strategy
  linarith

lemma aligned_is_multiple (cb : Callable) (started_at finished_at : ℚ)
    (m : Metrics) :
    ∃ k : ℤ, _aligned_last_finished_strategy cb started_at finished_at m =
      (k : ℚ) * cb.periodic_spacing := by
  refine ⟨ratTrunc (finished_at / cb.periodic_spacing) + 1, ?_⟩
  unfold _aligned_last_finished_strategy fmod
  push_cast
  ring


/-- C1: For every built-in post strategy without jitter, every callable
with positive spacing, all metrics and all times with
`started_at ≤ finished_at`, the returned deadline is `≥ finished_at`,
and the jitter variants also return a value `≥ finished_at` — REFUTED
twice: (a) for `last_started`, with spacing 1, `started_at = 0` and
`finished_at = 5` (a run that took longer than one spacing), the
strategy returns `1 < 5`; (b) a jitter variant returns no value at
all: the `decorator` closure built by `_add_jitter` has the
three-parameter signature `(cb, metrics, now=None)`, so invoking it
with the four positional arguments the completion callback supplies
raises `TypeError`. -/
theorem C1_counterexample :
    0 < cbPlain.periodic_spacing ∧ (0 : ℚ) ≤ 5 ∧
    _last_started_strategy cbPlain 0 5 _INITIAL_METRICS = 1 ∧
    _last_started_strategy cbPlain 0 5 _INITIAL_METRICS < 5 ∧
    PostCallable.call_post
      (.jitter_wrapped DEFAULT_JITTER _last_finished_strategy) (1/2) cbPlain
      0 5 _INITIAL_METRICS = .error .typeError := by
  refine ⟨by norm_num [cbPlain], by norm_num, ?_, ?_, rfl⟩ <;>
    norm_num [_last_started_strategy, cbPlain]

/-- C1 (amended): for callables with positive spacing and
`started_at ≤ finished_at`, the `last_finished` and
`aligned_last_finished` post strategies return a deadline
`≥ finished_at`; `last_started` returns exactly
`started_at + spacing`, which is `≥ finished_at` only under the extra
assumption that the run lasted at most one spacing.  The jitter
variants return no value in this snapshot: wrapping succeeds at
table-construction time (`DEFAULT_JITTER` passes the `[0, 1]` check),
but the stored `decorator` has the signature `(cb, metrics, now=None)`
and cannot bind the four positional arguments the completion callback
supplies, so every invocation of a jitter-wrapped post strategy raises
`TypeError` instead of producing a deadline. -/
theorem C1_amended (cb : Callable) (started_at finished_at r : ℚ)
    (m : Metrics) (hs : 0 < cb.periodic_spacing)
    (hsf : started_at ≤ finished_at) :
    finished_at ≤ _last_finished_strategy cb started_at finished_at m ∧
    finished_at ≤ _aligned_last_finished_strategy cb started_at finished_at m ∧
    _last_started_strategy cb started_at finished_at m =
      started_at + cb.periodic_spacing ∧
    (finished_at ≤ started_at + cb.periodic_spacing →
      finished_at ≤ _last_started_strategy cb started_at finished_at m) ∧
    PostCallable.call_post (.plain _last_finished_strategy) r cb
      started_at finished_at m =
      .ok (_last_finished_strategy cb started_at finished_at m) ∧
    _add_jitter DEFAULT_JITTER =
      .ok (fun func => .jitter_wrapped DEFAULT_JITTER func) ∧
    PostCallable.call_post
      (.jitter_wrapped DEFAULT_JITTER _last_started_strategy) r cb
      started_at finished_at m = .error .typeError ∧
    PostCallable.call_post
      (.jitter_wrapped DEFAULT_JITTER _last_finished_strategy) r cb
      started_at finished_at m = .error .typeError ∧
    PostCallable.call_post
      (.jitter_wrapped DEFAULT_JITTER _aligned_last_finished_strategy) r cb
      started_at finished_at m = .error .typeError := by
  have halign := aligned_ge_finished cb started_at finished_at m hs
  refine ⟨?_, halign, rfl, ?_, rfl, ?_, rfl, rfl, rfl⟩
  · unfold _last_finished_strategy; linarith
  · intro hle; unfold _last_started_strategy; linarith
  · rw [_add_jitter, if_neg (by norm_num [DEFAULT_JITTER])]

/-- Closed witness for `C1_amended` at spacing 2, `started_at = 1`,
`finished_at = 2`, draw `r = 1/2`. -/
theorem C1_amended_witness :
    (0 : ℚ) < (⟨true, 2, false⟩ : Callable).periodic_spacing ∧
    ((2 : ℚ) ≤ _last_finished_strategy ⟨true, 2, false⟩ 1 2 _INITIAL_METRICS ∧
     (2 : ℚ) ≤ _aligned_last_finished_strategy ⟨true, 2, false⟩ 1 2
       _INITIAL_METRICS ∧
     PostCallable.call_post
       (.jitter_wrapped DEFAULT_JITTER _last_started_strategy) (1/2)
       ⟨true, 2, false⟩ 1 2 _INITIAL_METRICS = .error .typeError) :=
  ⟨by norm_num,
   ((C1_amended ⟨true, 2, false⟩ 1 2 (1/2) _INITIAL_METRICS
      (by norm_num) (by norm_num)).1),
   ((C1_amended ⟨true, 2, false⟩ 1 2 (1/2) _INITIAL_METRICS
      (by norm_num) (by norm_num)).2.1),
   ((C1_amended ⟨true, 2, false⟩ 1 2 (1/2) _INITIAL_METRICS
      (by norm_num) (by norm_num)).2.2.2.2.2.2.1)⟩

/-- C4: for spacing `h > 0` and `finished_at ≥ 0`, the
`aligned_last_finished` post strategy returns
`(finished_at - fmod finished_at h) + h`, an integer multiple of `h`;
at `h = 2`, `finished_at = 5` it returns exactly 6. -/
theorem C4_aligned (cb : Callable) (started_at finished_at : ℚ) (m : Metrics)
    (hs : 0 < cb.periodic_spacing) (hf : 0 ≤ finished_at) :
    _aligned_last_finished_strategy cb started_at finished_at m =
      (finished_at - fmod finished_at cb.periodic_spacing) +
        cb.periodic_spacing ∧
    (∃ k : ℤ, _aligned_last_finished_strategy cb started_at finished_at m =
      (k : ℚ) * cb.periodic_spacing) ∧
    _aligned_last_finished_strategy ⟨true, 2, false⟩ 0 5 _INITIAL_METRICS = 6 := by
  refine ⟨rfl, aligned_is_multiple cb started_at finished_at m, ?_⟩
  have htr : ratTrunc ((5 : ℚ) / 2) = 2 := by
    unfold ratTrunc
    rw [if_pos (by norm_num : (0:ℚ) ≤ 5 / 2)]
    norm_num
  unfold _aligned_last_finished_strategy fmod
  rw [show ((⟨true, 2, false⟩ : Callable).periodic_spacing) = 2 from rfl]
  rw [htr]
  norm_num

/-- Closed witness for `C4_aligned` at spacing 2, `finished_at = 5`. -/
theorem C4_aligned_witness :
    _aligned_last_finished_strategy ⟨true, 2, false⟩ 0 5 _INITIAL_METRICS = 6 :=
  (C4_aligned ⟨true, 2, false⟩ 0 5 _INITIAL_METRICS
    (by norm_num) (by norm_num)).2.2

lemma buildGo_perm (now : ℚ) (sched : InitialStrategy) :
    ∀ (cbs : List Callable) (i : ℕ),
      (((_buildGo now sched i cbs).2._ordering.map Prod.snd) ++
        (_buildGo now sched i cbs).1).Perm (List.range' i cbs.length) := by
  intro cbs
  induction cbs with
  | nil => intro i; simp [_buildGo]
  | cons cb rest ih =>
    intro i
    have hr : List.range' i (cb :: rest).length =
        i :: List.range' (i + 1) rest.length := by
      simpa using List.range'_succ i rest.length 1
    rw [hr]
    by_cases hri : cb.periodic_run_immediately
    · simp only [_buildGo, hri, if_pos]
      refine List.Perm.trans List.perm_middle ?_
      exact (ih (i + 1)).cons i
    · simp only [_buildGo, hri, if_neg, Bool.false_eq_true, not_false_iff]
      have hins : ((((_buildGo now sched (i + 1) rest).2.push
            (sched cb now) i)._ordering).map Prod.snd).Perm
          (i :: ((_buildGo now sched (i + 1) rest).2._ordering.map Prod.snd)) := by
        have := List.perm_orderedInsert entryLE (sched cb now, i)
          (_buildGo now sched (i + 1) rest).2._ordering
        simpa [_Schedule.push] using this.map Prod.snd
      refine List.Perm.trans (hins.append_right _) ?_
      exact (ih (i + 1)).cons i

lemma buildGo_imms (now : ℚ) (sched : InitialStrategy) :
    ∀ (cbs : List Callable) (i j : ℕ), j ∈ (_buildGo now sched i cbs).1 →
      i ≤ j ∧ ∃ cb, cbs[j - i]? = some cb ∧ cb.periodic_run_immediately = true := by
  intro cbs
  induction cbs with
  | nil => intro i j hj; simp [_buildGo] at hj
  | cons cb rest ih =>
    intro i j hj
    by_cases hri : cb.periodic_run_immediately
    · simp only [_buildGo, hri, if_pos, List.mem_cons] at hj
      rcases hj with rfl | hj
      · exact ⟨le_refl j, cb, by simp, hri⟩
      · obtain ⟨hij, cb', hcb', hflag⟩ := ih (i + 1) j hj
        refine ⟨by omega, cb', ?_, hflag⟩
        have hsub : j - i = (j - (i + 1)) + 1 := by omega
        rw [hsub, List.getElem?_cons_succ]
        exact hcb'
    · simp only [_buildGo, hri, if_neg, Bool.false_eq_true, not_false_iff] at hj
      obtain ⟨hij, cb', hcb', hflag⟩ := ih (i + 1) j hj
      refine ⟨by omega, cb', ?_, hflag⟩
      have hsub : j - i = (j - (i + 1)) + 1 := by omega
      rw [hsub, List.getElem?_cons_succ]
      exact hcb'

lemma build_perm (now : ℚ) (sched : InitialStrategy) (cbs : List Callable) :
    (((_build now cbs sched).2._ordering.map Prod.snd) ++
      (_build now cbs sched).1).Perm (List.range cbs.length) := by
  rw [List.range_eq_range']
  exact buildGo_perm now sched cbs 0

lemma build_imms (now : ℚ) (sched : InitialStrategy) (cbs : List Callable)
    (j : ℕ) (hj : j ∈ (_build now cbs sched).1) :
    ∃ cb, cbs[j]? = some cb ∧ cb.periodic_run_immediately = true := by
  have := (buildGo_imms now sched cbs 0 j hj).2
  simpa using this

lemma inv_make (initial : InitialStrategy) (now : ℚ) (cbs : List Callable) :
    WorkerInv (PeriodicWorker.make initial now cbs) := by
  refine ⟨?_, ?_, ?_, ?_⟩
  · simp [PeriodicWorker.make]
  · show ((_build now (cbs.filter (fun cb => cb.is_periodic)) initial).2._ordering.map
        Prod.snd ++
        (_build now (cbs.filter (fun cb => cb.is_periodic)) initial).1 ++ []).Perm _
    rw [List.append_nil]
    exact build_perm now initial _
  · intro i hi
    exact build_imms now initial _ i hi
  · intro m hm
    simp only [PeriodicWorker.make, List.mem_map] at hm
    obtain ⟨_, _, rfl⟩ := hm
    rfl

lemma inv_add {initial : InitialStrategy} {now : ℚ} {w w' : PeriodicWorker}
    {cb : Callable} {i : ℕ}
    (hw : WorkerInv w) (h : PeriodicWorker.add initial now w cb = (some i, w')) :
    WorkerInv w' := by
  by_cases hP : cb.is_periodic = true
  · rw [PeriodicWorker.add, hP] at h
    simp only [Bool.not_true, Bool.false_eq_true, if_false] at h
    by_cases hri : cb.periodic_run_immediately = true
    · rw [if_pos hri] at h
      injection h with hfst hsnd
      injection hfst with hni
      subst hni
      subst hsnd
      refine ⟨?_, ?_, ?_, ?_⟩
      · simpa using hw.watchers_len
      · show ((w._schedule._ordering.map Prod.snd) ++
            (w._immediates ++ [w._callables.length]) ++
            w._in_flight).Perm (List.range (w._callables ++ [cb]).length)
        have h1 : ((w._schedule._ordering.map Prod.snd) ++
            (w._immediates ++ [w._callables.length]) ++
            w._in_flight).Perm (slots w ++ [w._callables.length]) := by
          rw [List.perm_iff_count]
          intro a
          simp only [slots, List.count_append]
          omega
        refine h1.trans ?_
        refine (hw.slots_perm.append_right _).trans ?_
        rw [← List.range_succ]
        simp
      · intro j hj
        simp only [List.mem_append, List.mem_singleton] at hj
        rcases hj with hj | rfl
        · obtain ⟨cb', hcb', hflag⟩ := hw.imms_flag j hj
          have hjlt : j < w._callables.length :=
            (List.getElem?_eq_some.mp hcb').1
          exact ⟨cb', by rw [List.getElem?_append_left hjlt]; exact hcb', hflag⟩
        · exact ⟨cb, List.getElem?_concat_length w._callables cb, hri⟩
      · intro m hm
        simp only [List.mem_append, List.mem_singleton] at hm
        rcases hm with hm | rfl
        · exact hw.metrics_ok m hm
        · rfl
    · rw [if_neg hri] at h
      injection h with hfst hsnd
      injection hfst with hni
      subst hni
      subst hsnd
      refine ⟨?_, ?_, ?_, ?_⟩
      · simpa using hw.watchers_len
      · show (((w._schedule.push (initial cb now) w._callables.length)._ordering.map
            Prod.snd) ++ w._immediates ++ w._in_flight).Perm
            (List.range (w._callables ++ [cb]).length)
        have hins : (((w._schedule.push (initial cb now)
            w._callables.length)._ordering).map Prod.snd).Perm
            (w._callables.length :: (w._schedule._ordering.map Prod.snd)) := by
          have := List.perm_orderedInsert entryLE
            (initial cb now, w._callables.length) w._schedule._ordering
          simpa [_Schedule.push] using this.map Prod.snd
        refine ((hins.append_right _).append_right _).trans ?_
        show (w._callables.length :: slots w).Perm _
        refine (hw.slots_perm.cons _).trans ?_
        refine (@List.perm_append_comm ℕ [w._callables.length] _).trans ?_
        show (List.range w._callables.length ++ [w._callables.length]).Perm _
        rw [← List.range_succ]
        simp
      · intro j hj
        obtain ⟨cb', hcb', hflag⟩ := hw.imms_flag j hj
        have hjlt : j < w._callables.length :=
          (List.getElem?_eq_some.mp hcb').1
        exact ⟨cb', by rw [List.getElem?_append_left hjlt]; exact hcb', hflag⟩
      · intro m hm
        simp only [List.mem_append, List.mem_singleton] at hm
        rcases hm with hm | rfl
        · exact hw.metrics_ok m hm
        · rfl
  · have hP' : cb.is_periodic = false := by simpa using hP
    rw [PeriodicWorker.add, hP'] at h
    simp at h

lemma on_done_eq (post : PostStrategy) (r : ℚ) (i : ℕ)
    (submitted_at started_at finished_at : ℚ) (failure : Bool)
    (w : PeriodicWorker) (m : Metrics) (c : Callable)
    (hm : w._watchers[i]? = some m) (hc : w._callables[i]? = some c) :
    _on_done post r i submitted_at started_at finished_at failure w =
      (let m1 := { m with runs := m.runs + 1 }
       let m2 := if failure then { m1 with failures := m1.failures + 1 }
                 else { m1 with successes := m1.successes + 1 }
       let m3 := { m2 with
                    elapsed := m2.elapsed + max 0 (finished_at - started_at),
                    elapsed_waiting :=
                      m2.elapsed_waiting + max 0 (started_at - submitted_at) }
       { w with _watchers := w._watchers.set i m3,
                _schedule :=
                  w._schedule.push (post r c started_at finished_at m3) i,
                _in_flight := w._in_flight.erase i }) := by
  unfold _on_done
  rw [hm, hc]

lemma update_worker_inv {w : PeriodicWorker} (hw : WorkerInv w) (i : ℕ)
    (hi : i ∈ w._in_flight) (m3 : Metrics)
    (hbal : m3.runs = m3.successes + m3.failures) (v : ℚ) :
    WorkerInv { w with _watchers := w._watchers.set i m3,
                       _schedule := w._schedule.push v i,
                       _in_flight := w._in_flight.erase i } := by
  refine ⟨?_, ?_, ?_, ?_⟩
  · simpa [List.length_set] using hw.watchers_len
  · have hins : ((w._schedule.push v i)._ordering.map Prod.snd).Perm
        (i :: (w._schedule._ordering.map Prod.snd)) := by
      have := List.perm_orderedInsert entryLE (v, i) w._schedule._ordering
      simpa [_Schedule.push] using this.map Prod.snd
    refine ((hins.append_right _).append_right _).trans ?_
    show (i :: (w._schedule._ordering.map Prod.snd ++ w._immediates ++
        w._in_flight.erase i)).Perm _
    have hfl : w._in_flight.Perm (i :: w._in_flight.erase i) :=
      List.perm_cons_erase hi
    have hsl : (slots w).Perm
        (i :: (w._schedule._ordering.map Prod.snd ++ w._immediates ++
          w._in_flight.erase i)) := by
      refine (hfl.append_left _).trans ?_
      exact List.perm_middle
    exact hsl.symm.trans hw.slots_perm
  · exact hw.imms_flag
  · intro m' hm'
    rcases List.mem_or_eq_of_mem_set hm' with hold | rfl
    · exact hw.metrics_ok m' hold
    · exact hbal

lemma on_done_inv (post : PostStrategy) {w : PeriodicWorker}
    (hw : WorkerInv w) (r : ℚ) (i : ℕ)
    (submitted_at started_at finished_at : ℚ) (failure : Bool)
    (hi : i ∈ w._in_flight) :
    WorkerInv (_on_done post r i submitted_at started_at finished_at failure w) := by
  have hmem : i ∈ slots w := by
    simp only [slots, List.mem_append]
    exact Or.inr hi
  have hilt : i < w._callables.length :=
    List.mem_range.mp (hw.slots_perm.mem_iff.mp hmem)
  have hiw : i < w._watchers.length := by rw [hw.watchers_len]; exact hilt
  obtain ⟨m, hm⟩ : ∃ m, w._watchers[i]? = some m :=
    ⟨_, List.getElem?_eq_getElem hiw⟩
  obtain ⟨c, hc⟩ : ∃ c, w._callables[i]? = some c :=
    ⟨_, List.getElem?_eq_getElem hilt⟩
  have hmw : m ∈ w._watchers := List.getElem?_mem hm
  have hbal := hw.metrics_ok m hmw
  rw [on_done_eq post r i submitted_at started_at finished_at failure w m c hm hc]
  refine update_worker_inv hw i hi _ ?_ _
  by_cases hfail : failure = true
  · simp only [hfail, if_pos]
    omega
  · have hfalse : failure = false := by simpa using hfail
    simp only [hfalse, Bool.false_eq_true, if_false]
    omega

lemma inv_copy {w w' : PeriodicWorker} (hw : WorkerInv w)
    (h1 : w'._watchers = w._watchers) (h2 : w'._callables = w._callables)
    (h3 : w'._immediates = w._immediates) (h4 : w'._schedule = w._schedule)
    (h5 : w'._in_flight = w._in_flight) : WorkerInv w' := by
  refine ⟨?_, ?_, ?_, ?_⟩
  · rw [h1, h2]; exact hw.watchers_len
  · rw [slots, h3, h4, h5, h2]; exact hw.slots_perm
  · rw [h3, h2]; exact hw.imms_flag
  · rw [h1]; exact hw.metrics_ok

lemma start_ok {w w' : PeriodicWorker} {allow_empty : Bool}
    (h : w.start allow_empty = .ok w') :
    w' = { w with _dead := false, _active := true } := by
  rw [PeriodicWorker.start] at h
  split_ifs at h
  · injection h with h'
    exact h'.symm

lemma inv_step {post : PostStrategy} {initial : InitialStrategy}
    {w w' : PeriodicWorker} (hw : WorkerInv w) (hs : Step post initial w w') :
    WorkerInv w' := by
  cases hs with
  | start w' allow_empty h =>
    rw [start_ok h]
    exact inv_copy hw rfl rfl rfl rfl rfl
  | loopExit ht ha =>
    exact inv_copy hw rfl rfl rfl rfl rfl
  | stop =>
    exact inv_copy hw rfl rfl rfl rfl rfl
  | add w' cb now i h =>
    exact inv_add hw h
  | reset now ha hf =>
    refine ⟨?_, ?_, ?_, ?_⟩
    · simpa [PeriodicWorker.reset] using hw.watchers_len
    · show ((_build now w._callables initial).2._ordering.map Prod.snd ++
        (_build now w._callables initial).1 ++ w._in_flight).Perm _
      rw [hf, List.append_nil]
      exact build_perm now initial _
    · intro j hj
      exact build_imms now initial _ j hj
    · intro m hm
      simp only [PeriodicWorker.reset, List.mem_map] at hm
      obtain ⟨_, _, rfl⟩ := hm
      rfl
  | dispatchImmediate i rest hact htmb himm =>
    refine ⟨hw.watchers_len, ?_, ?_, hw.metrics_ok⟩
    · have hshuffle : (w._schedule._ordering.map Prod.snd ++ rest ++
          (w._in_flight ++ [i])).Perm
          (w._schedule._ordering.map Prod.snd ++ (i :: rest) ++ w._in_flight) := by
        rw [List.perm_iff_count]
        intro a
        simp only [List.count_append, List.count_cons, List.count_nil]
        omega
      refine hshuffle.trans ?_
      have hslots : slots w = w._schedule._ordering.map Prod.snd ++ (i :: rest) ++
          w._in_flight := by rw [slots, himm]
      exact hslots ▸ hw.slots_perm
    · intro j hj
      exact hw.imms_flag j (by rw [himm]; exact List.mem_cons_of_mem i hj)
  | dispatchScheduled now next_run i s' hact htmb himm hpop hle =>
    rw [_Schedule.pop] at hpop
    rcases hord : w._schedule._ordering with _ | ⟨⟨en, ei⟩, rest⟩
    · rw [hord] at hpop
      exact absurd hpop (by simp)
    · rw [hord] at hpop
      simp only [Option.some.injEq, Prod.mk.injEq] at hpop
      obtain ⟨⟨hen, hei⟩, hs'⟩ := hpop
      rw [hen, hei] at hord
      subst hs'
      refine ⟨hw.watchers_len, ?_, ?_, hw.metrics_ok⟩
      · have hshuffle : ((⟨rest⟩ : _Schedule)._ordering.map Prod.snd ++
            w._immediates ++ (w._in_flight ++ [i])).Perm
            (((next_run, i) :: rest).map Prod.snd ++ w._immediates ++
              w._in_flight) := by
          rw [List.perm_iff_count]
          intro a
          simp only [List.map_cons, List.count_append, List.count_cons,
            List.count_nil]
          omega
        refine hshuffle.trans ?_
        have hslots : slots w = ((next_run, i) :: rest).map Prod.snd ++
            w._immediates ++ w._in_flight := by rw [slots, hord]
        exact hslots ▸ hw.slots_perm
      · intro j hj
        exact hw.imms_flag j hj
  | complete r i submitted_at started_at finished_at failure hi hr0 hr1 =>
    exact on_done_inv post hw r i submitted_at started_at finished_at failure hi

lemma reachable_inv {post : PostStrategy} {initial : InitialStrategy}
    {w : PeriodicWorker} (hr : Reachable post initial w) : WorkerInv w := by
  induction hr with
  | init callables now => exact inv_make initial now callables
  | step hprev hstep ih => exact inv_step ih hstep

lemma add_in_flight (initial : InitialStrategy) (now : ℚ)
    (w : PeriodicWorker) (cb : Callable) :
    ((PeriodicWorker.add initial now w cb).2)._in_flight = w._in_flight := by
  rw [PeriodicWorker.add]
  split_ifs <;> rfl

lemma step_tombstone_no_dispatch {post : PostStrategy}
    {initial : InitialStrategy} {w w' : PeriodicWorker}
    (ht : w._tombstone = true) (hfl : w._in_flight = [])
    (hs : Step post initial w w') : w'._in_flight = [] := by
  cases hs with
  | start w' allow_empty h => rw [start_ok h]; exact hfl
  | loopExit ht' ha => exact hfl
  | stop => exact hfl
  | add w' cb now i h =>
    have hkeep := add_in_flight initial now w cb
    rw [h] at hkeep
    exact hkeep.trans hfl
  | reset now ha hf => exact hfl
  | dispatchImmediate i rest hact htmb himm =>
    rw [ht] at htmb
    exact Bool.noConfusion htmb
  | dispatchScheduled now next_run i s' hact htmb himm hpop hle =>
    rw [ht] at htmb
    exact Bool.noConfusion htmb
  | complete r i submitted_at started_at finished_at failure hi hr0 hr1 =>
    rw [hfl] at hi
    exact absurd hi (List.not_mem_nil i)

lemma stoppedWorkerExample_reachable :
    Reachable post0 _now_plus_periodicity stoppedWorkerExample := by
  have h0 : Reachable post0 _now_plus_periodicity
      (PeriodicWorker.make _now_plus_periodicity 0 [cbPlain]) :=
    Reachable.init [cbPlain] 0
  have h1 := h0.step (Step.start _
    { PeriodicWorker.make _now_plus_periodicity 0 [cbPlain] with
      _dead := false, _active := true } false rfl)
  have h2 := h1.step (Step.stop _)
  have h3 := h2.step (Step.loopExit _ rfl rfl)
  have hEq : ({ ({ PeriodicWorker.make _now_plus_periodicity 0 [cbPlain] with
      _dead := false, _active := true } : PeriodicWorker).stop with
      _dead := true, _active := false } : PeriodicWorker) = stoppedWorkerExample := by
    simp only [PeriodicWorker.make, PeriodicWorker.stop, stoppedWorkerExample,
      cbPlain, _build, _buildGo, _Schedule.push, List.orderedInsert,
      _now_plus_periodicity, List.filter, List.map]
    norm_num
  exact hEq ▸ h3

/-- C2: calling `start()` on a worker that was stopped (tombstone set,
loop exited) and not reset is claimed to fail with the ShutdownError
kind — REFUTED: on the concrete reachable stopped worker
`stoppedWorkerExample`, `start` performs no tombstone check and
returns successfully (no error is raised). -/
theorem C2_counterexample :
    Reachable post0 _now_plus_periodicity stoppedWorkerExample ∧
    stoppedWorkerExample._tombstone = true ∧
    stoppedWorkerExample._active = false ∧
    stoppedWorkerExample._dead = true ∧
    PeriodicWorker.start stoppedWorkerExample false =
      .ok { stoppedWorkerExample with _dead := false, _active := true } :=
  ⟨stoppedWorkerExample_reachable, rfl, rfl, rfl, rfl⟩

/-- C2 (amended): after `stop()` and loop exit (tombstone set, not
active, nothing in flight), a new `start()` does not raise: it
succeeds, clearing `dead` and setting `active` — but the restarted
loop submits no work: every possible step from the restarted state
leaves the in-flight set empty, because both dispatch phases require a
clear tombstone (only `reset()` clears it). -/
theorem C2_amended (post : PostStrategy) (initial : InitialStrategy)
    (w : PeriodicWorker) (ht : w._tombstone = true) (ha : w._active = false)
    (hne : w._callables ≠ []) (hfl : w._in_flight = []) :
    w.start false = .ok { w with _dead := false, _active := true } ∧
    ∀ w', Step post initial { w with _dead := false, _active := true } w' →
      w'._in_flight = [] := by
  constructor
  · rw [PeriodicWorker.start]
    have hie : w._callables.isEmpty = false := by
      simp [List.isEmpty_iff, hne]
    simp [hie, ha]
  · intro w' hstep
    exact @step_tombstone_no_dispatch post initial
      { w with _dead := false, _active := true } w' ht hfl hstep

/-- Closed witness for `C2_amended` at the concrete stopped worker. -/
theorem C2_amended_witness :
    PeriodicWorker.start stoppedWorkerExample false =
      .ok { stoppedWorkerExample with _dead := false, _active := true } :=
  (C2_amended post0 _now_plus_periodicity stoppedWorkerExample rfl rfl
    (by decide) rfl).1

lemma capture_stats_terminal_count (now started_at : ℚ) (fut : Fut)
    (s : ExecutorStatistics) :
    (_capture_stats now started_at fut s).executed +
      (_capture_stats now started_at fut s).cancelled =
      s.executed + s.cancelled + 1 := by
  rw [_capture_stats]
  by_cases hc : fut.cancelled = true
  · simp only [hc, if_pos]
    omega
  · have hc' : fut.cancelled = false := by simpa using hc
    simp only [hc', Bool.false_eq_true, if_false]
    omega

lemma capture_stats_all_count (events : List (ℚ × ℚ × Fut)) :
    ∀ s : ExecutorStatistics,
      (_capture_stats_all events s).executed +
        (_capture_stats_all events s).cancelled =
        s.executed + s.cancelled + events.length := by
  induction events with
  | nil => intro s; simp [_capture_stats_all]
  | cons e es ih =>
    intro s
    have hstep := capture_stats_terminal_count e.1 e.2.1 e.2.2 s
    have hrec := ih (_capture_stats e.1 e.2.1 e.2.2 s)
    have hunfold : _capture_stats_all (e :: es) s =
        _capture_stats_all es (_capture_stats e.1 e.2.1 e.2.2 s) := rfl
    rw [hunfold, List.length_cons]
    omega

/-- C3: each completion fold of the statistics gatherer on a terminal
handle behaves as specified — a cancelled handle increments only
`cancelled`; otherwise `executed` is incremented, `failures` is
incremented iff an exception is present, and `runtime` grows by
`max 0 (now - started_at)` — and consequently, after any sequence of
folds, `executed + cancelled` equals the number of handles folded. -/
theorem C3_capture_stats (now started_at : ℚ) (fut : Fut)
    (s : ExecutorStatistics) (events : List (ℚ × ℚ × Fut)) :
    (fut.cancelled = true →
      _capture_stats now started_at fut s =
        { s with cancelled := s.cancelled + 1 }) ∧
    (fut.cancelled = false →
      (_capture_stats now started_at fut s).executed = s.executed + 1 ∧
      (_capture_stats now started_at fut s).failures =
        s.failures + (if fut.exception.isSome then 1 else 0) ∧
      (_capture_stats now started_at fut s).runtime =
        s.runtime + max 0 (now - started_at) ∧
      (_capture_stats now started_at fut s).cancelled = s.cancelled) ∧
    ((_capture_stats_all events ExecutorStatistics.initial).executed +
      (_capture_stats_all events ExecutorStatistics.initial).cancelled =
      events.length) := by
  refine ⟨?_, ?_, ?_⟩
  · intro hc
    rw [_capture_stats]
    simp only [hc, if_pos]
  · intro hc
    refine ⟨by simp [_capture_stats, hc], ?_, by simp [_capture_stats, hc],
      by simp [_capture_stats, hc]⟩
    by_cases he : fut.exception.isSome <;> simp [_capture_stats, hc, he]
  · have := capture_stats_all_count events ExecutorStatistics.initial
    simpa [ExecutorStatistics.initial] using this

/-- Closed witness for `C3_capture_stats`: one cancelled handle, one
failed handle, folded from the initial statistics. -/
theorem C3_capture_stats_witness :
    _capture_stats 3 1 ⟨true, none⟩ ExecutorStatistics.initial =
      { ExecutorStatistics.initial with cancelled := 1 } ∧
    (_capture_stats_all [(3, 1, ⟨false, some ()⟩), (5, 2, ⟨true, none⟩)]
        ExecutorStatistics.initial).executed +
      (_capture_stats_all [(3, 1, ⟨false, some ()⟩), (5, 2, ⟨true, none⟩)]
        ExecutorStatistics.initial).cancelled = 2 :=
  ⟨(C3_capture_stats 3 1 ⟨true, none⟩ ExecutorStatistics.initial []).1 rfl,
   (C3_capture_stats 3 1 ⟨true, none⟩ ExecutorStatistics.initial
      [(3, 1, ⟨false, some ()⟩), (5, 2, ⟨true, none⟩)]).2.2⟩

/-- C5: in every reachable worker state with no run in flight, the
heap size plus the immediates-queue size equals the number of
registered (enabled) callables; every registered non-immediate
callable has exactly one heap entry; and no callable appears more than
once in the immediates queue. -/
theorem C5_slot_conservation (post : PostStrategy) (initial : InitialStrategy)
    (w : PeriodicWorker) (hr : Reachable post initial w)
    (hfl : w._in_flight = []) :
    w._schedule.length + w._immediates.length = w._callables.length ∧
    (∀ (i : ℕ) (cb : Callable), w._callables[i]? = some cb →
      cb.periodic_run_immediately = false →
      (w._schedule._ordering.map Prod.snd).count i = 1) ∧
    (∀ i : ℕ, w._immediates.count i ≤ 1) := by
  have hw := reachable_inv hr
  have hperm := hw.slots_perm
  rw [slots, hfl, List.append_nil] at hperm
  refine ⟨?_, ?_, ?_⟩
  · have := hperm.length_eq
    simpa [_Schedule.length] using this
  · intro i cb hcb hflag
    have hilt : i < w._callables.length := (List.getElem?_eq_some.mp hcb).1
    have hcount := hperm.count_eq i
    have hrange : (List.range w._callables.length).count i = 1 :=
      List.count_eq_one_of_mem (List.nodup_range _) (List.mem_range.mpr hilt)
    have hni : i ∉ w._immediates := by
      intro hmem
      obtain ⟨cb', hcb', hflag'⟩ := hw.imms_flag i hmem
      rw [hcb] at hcb'
      injection hcb' with hEq
      rw [← hEq] at hflag'
      rw [hflag] at hflag'
      exact Bool.noConfusion hflag'
    have hzero : w._immediates.count i = 0 :=
      List.count_eq_zero_of_not_mem hni
    rw [List.count_append] at hcount
    omega
  · intro i
    have hcount := hperm.count_eq i
    rw [List.count_append] at hcount
    have hle1 : (List.range w._callables.length).count i ≤ 1 :=
      List.nodup_iff_count_le_one.mp (List.nodup_range _) i
    omega

/-- Closed witness for `C5_slot_conservation` on the freshly built
two-callable worker (one immediate, one scheduled). -/
theorem C5_slot_conservation_witness :
    twoWorkerExample._in_flight = [] ∧
    twoWorkerExample._schedule.length + twoWorkerExample._immediates.length =
      twoWorkerExample._callables.length :=
  ⟨rfl, (C5_slot_conservation post0 _now_plus_periodicity twoWorkerExample
    (Reachable.init [cbPlain, cbImmediate] 0) rfl).1⟩

/-- C6: each per-callable metrics record satisfies
`runs = successes + failures`: it holds for the all-zero initial
record, is preserved by every execution of the completion callback
`_on_done` (whether the run failed or succeeded), and therefore holds
for every metrics record of every reachable worker state. -/
theorem C6_metrics_balance (post : PostStrategy) (initial : InitialStrategy)
    (w : PeriodicWorker) (hr : Reachable post initial w) :
    _INITIAL_METRICS.runs =
      _INITIAL_METRICS.successes + _INITIAL_METRICS.failures ∧
    (∀ (r : ℚ) (i : ℕ) (submitted_at started_at finished_at : ℚ)
        (failure : Bool) (v : PeriodicWorker),
      (∀ m ∈ v._watchers, m.runs = m.successes + m.failures) →
      ∀ m ∈ (_on_done post r i submitted_at started_at finished_at failure
          v)._watchers, m.runs = m.successes + m.failures) ∧
    (∀ m ∈ w._watchers, m.runs = m.successes + m.failures) := by
  refine ⟨rfl, ?_, (reachable_inv hr).metrics_ok⟩
  intro r i submitted_at started_at finished_at failure v hv m hm
  rcases hW : v._watchers[i]? with _ | m'
  · rw [_on_done, hW] at hm
    exact hv m hm
  · rcases hC : v._callables[i]? with _ | c
    · rw [_on_done, hW, hC] at hm
      exact hv m hm
    · rw [on_done_eq post r i submitted_at started_at finished_at failure
        v m' c hW hC] at hm
      rcases List.mem_or_eq_of_mem_set hm with hold | rfl
      · exact hv m hold
      · have hbal := hv m' (List.getElem?_mem hW)
        by_cases hfail : failure = true
        · simp only [hfail, if_pos]
          omega
        · have hfalse : failure = false := by simpa using hfail
          simp only [hfalse, Bool.false_eq_true, if_false]
          omega

/-- Closed witness for `C6_metrics_balance` on the two-callable
worker: its first metrics record balances. -/
theorem C6_metrics_balance_witness :
    _INITIAL_METRICS ∈ twoWorkerExample._watchers ∧
    _INITIAL_METRICS.runs =
      _INITIAL_METRICS.successes + _INITIAL_METRICS.failures :=
  ⟨List.mem_cons_self _ _,
   (C6_metrics_balance post0 _now_plus_periodicity twoWorkerExample
     (Reachable.init [cbPlain, cbImmediate] 0)).2.2 _INITIAL_METRICS
     (List.mem_cons_self _ _)⟩

lemma lookup_none_of_not_contains {β : Type _} (l : List (String × β))
    (name : String) (h : (l.map Prod.fst).contains name = false) :
    List.lookup name l = none := by
  induction l with
  | nil => rfl
  | cons e es ih =>
    obtain ⟨k, b⟩ := e
    rw [List.map_cons, List.contains_cons, Bool.or_eq_false_iff] at h
    have hk : (name == k) = false := h.1
    simp only [List.lookup, hk]
    exact ih h.2

lemma lookup_some_of_contains {β : Type _} (l : List (String × β))
    (name : String) (h : (l.map Prod.fst).contains name = true) :
    ∃ b, List.lookup name l = some b := by
  induction l with
  | nil => simp at h
  | cons e es ih =>
    obtain ⟨k, b⟩ := e
    rw [List.map_cons, List.contains_cons, Bool.or_eq_true_iff] at h
    by_cases hk : (name == k) = true
    · exact ⟨b, by simp [List.lookup, hk]⟩
    · have hk' : (name == k) = false := by simpa using hk
      obtain ⟨b', hb'⟩ := ih (h.resolve_left hk)
      exact ⟨b', by simp only [List.lookup, hk']; exact hb'⟩

/-- C8: constructing a `PeriodicWorker` with a `schedule_strategy`
name that is not among the built-in strategy names fails with the
ConfigError kind (`ValueError` in the source) and yields no worker
state; any built-in name succeeds, selecting the associated
`(post_strategy, initial_strategy)` pair and building the worker. -/
theorem C8_strategy_selection (callables : List Callable) (name : String)
    (now : ℚ) :
    ((BUILT_IN_STRATEGIES.map Prod.fst).contains name = false →
      PeriodicWorker.init callables name now = .error .config) ∧
    ((BUILT_IN_STRATEGIES.map Prod.fst).contains name = true →
      ∃ strat, List.lookup name BUILT_IN_STRATEGIES = some strat ∧
        PeriodicWorker.init callables name now =
          .ok (PeriodicWorker.make strat.2 now callables, strat)) := by
  constructor
  · intro h
    have := lookup_none_of_not_contains BUILT_IN_STRATEGIES name h
    rw [PeriodicWorker.init, this]
  · intro h
    obtain ⟨strat, hstrat⟩ := lookup_some_of_contains BUILT_IN_STRATEGIES name h
    exact ⟨strat, hstrat, by rw [PeriodicWorker.init, hstrat]⟩

/-- Closed witness for `C8_strategy_selection`: the unknown name
"bogus" is rejected; the built-in name "aligned_last_finished" is
accepted. -/
theorem C8_strategy_selection_witness :
    PeriodicWorker.init [] "bogus" 0 = .error .config ∧
    ∃ strat, List.lookup "aligned_last_finished" BUILT_IN_STRATEGIES =
        some strat ∧
      PeriodicWorker.init [] "aligned_last_finished" 0 =
        .ok (PeriodicWorker.make strat.2 0 [], strat) :=
  ⟨(C8_strategy_selection [] "bogus" 0).1 (by decide),
   (C8_strategy_selection [] "aligned_last_finished" 0).2 (by decide)⟩

/-- C7: after `reset()`, every watcher slot that existed before (any
index below the watchers-array length) reads the all-zero metrics
record — `reset` zeroes the records in the same parallel array the
watchers observe, so every previously obtained watcher sees `runs`,
`successes`, `failures`, `elapsed` and `elapsed_waiting` all zero —
and the immediates queue and schedule heap are rebuilt with `_build`
from the registered callables. -/
theorem C7_reset_observed (initial : InitialStrategy) (now : ℚ)
    (w : PeriodicWorker) (i : ℕ) (hi : i < w._watchers.length) :
    (PeriodicWorker.reset initial now w)._watchers[i]? =
      some _INITIAL_METRICS ∧
    _INITIAL_METRICS.runs = 0 ∧ _INITIAL_METRICS.successes = 0 ∧
    _INITIAL_METRICS.failures = 0 ∧ _INITIAL_METRICS.elapsed = 0 ∧
    _INITIAL_METRICS.elapsed_waiting = 0 ∧
    (PeriodicWorker.reset initial now w)._watchers.length =
      w._watchers.length ∧
    (PeriodicWorker.reset initial now w)._immediates =
      (_build now w._callables initial).1 ∧
    (PeriodicWorker.reset initial now w)._schedule =
      (_build now w._callables initial).2 := by
  refine ⟨?_, rfl, rfl, rfl, rfl, rfl, by simp [PeriodicWorker.reset], rfl, rfl⟩
  show (w._watchers.map (fun _ => _INITIAL_METRICS))[i]? = some _INITIAL_METRICS
  rw [List.getElem?_map, List.getElem?_eq_getElem hi]
  rfl

/-- Closed witness for `C7_reset_observed` at slot 0 of the
two-callable worker. -/
theorem C7_reset_observed_witness :
    (PeriodicWorker.reset _now_plus_periodicity 7 twoWorkerExample)._watchers[0]? =
      some _INITIAL_METRICS :=
  (C7_reset_observed _now_plus_periodicity 7 twoWorkerExample 0
    (by rw [show twoWorkerExample._watchers =
        [_INITIAL_METRICS, _INITIAL_METRICS] from rfl]; simp)).1

/-- C9: `add()` of a correctly decorated callable whose enabled flag
is false returns no watcher and leaves the worker unchanged — the
callables, watchers, immediates and schedule all keep their previous
contents, so `len(worker)` does not change, and is 0 for a fresh empty
worker. -/
theorem C9_add_disabled (initial : InitialStrategy) (now : ℚ)
    (w : PeriodicWorker) (cb : Callable) (hcb : cb.is_periodic = false) :
    PeriodicWorker.add initial now w cb = (none, w) ∧
    ((PeriodicWorker.add initial now w cb).2)._callables = w._callables ∧
    ((PeriodicWorker.add initial now w cb).2)._watchers = w._watchers ∧
    ((PeriodicWorker.add initial now w cb).2)._immediates = w._immediates ∧
    ((PeriodicWorker.add initial now w cb).2)._schedule = w._schedule ∧
    ((PeriodicWorker.add initial now w cb).2).size = w.size ∧
    (PeriodicWorker.make initial now []).size = 0 := by
  have h : PeriodicWorker.add initial now w cb = (none, w) := by
    rw [PeriodicWorker.add, hcb]
    rfl
  rw [h]
  exact ⟨rfl, rfl, rfl, rfl, rfl, rfl, rfl⟩

/-- Closed witness for `C9_add_disabled`: adding the disabled callable
to the two-callable worker changes nothing. -/
theorem C9_add_disabled_witness :
    PeriodicWorker.add _now_plus_periodicity 3 twoWorkerExample cbDisabled =
      (none, twoWorkerExample) ∧
    (PeriodicWorker.make _now_plus_periodicity 3 []).size = 0 :=
  ⟨(C9_add_disabled _now_plus_periodicity 3 twoWorkerExample cbDisabled rfl).1,
   (C9_add_disabled _now_plus_periodicity 3 twoWorkerExample cbDisabled
     rfl).2.2.2.2.2.2⟩

/-- C10: the average accessors divide without a guard:
`ExecutorStatistics.average_runtime` is `runtime / executed` and
raises `ZeroDivisionError` exactly when `executed = 0`;
`Watcher.average_elapsed` and `Watcher.average_elapsed_waiting` are
`elapsed / runs` and `elapsed_waiting / runs` and raise
`ZeroDivisionError` exactly when `runs = 0`.  All three are pure reads
of the record. -/
theorem C10_average_accessors (s : ExecutorStatistics) (m : Metrics) :
    (s.executed = 0 →
      s.average_runtime = .error .divisionByZero) ∧
    (s.executed ≠ 0 →
      s.average_runtime = .ok (s.runtime / (s.executed : ℚ))) ∧
    (m.runs = 0 →
      Watcher.average_elapsed m = .error .divisionByZero) ∧
    (m.runs ≠ 0 →
      Watcher.average_elapsed m = .ok (m.elapsed / (m.runs : ℚ))) ∧
    (m.runs = 0 →
      Watcher.average_elapsed_waiting m = .error .divisionByZero) ∧
    (m.runs ≠ 0 →
      Watcher.average_elapsed_waiting m =
        .ok (m.elapsed_waiting / (m.runs : ℚ))) := by
  refine ⟨?_, ?_, ?_, ?_, ?_, ?_⟩ <;> intro h <;>
    simp [ExecutorStatistics.average_runtime, Watcher.average_elapsed,
      Watcher.average_elapsed_waiting, pydiv, h]

/-- Closed witness for `C10_average_accessors`: zero counters raise,
non-zero counters divide. -/
theorem C10_average_accessors_witness :
    ExecutorStatistics.average_runtime ⟨0, 0, 0, 0⟩ =
      .error .divisionByZero ∧
    ExecutorStatistics.average_runtime ⟨1, 2, 6, 0⟩ = .ok 3 ∧
    Watcher.average_elapsed ⟨0, 0, 0, 0, 0⟩ = .error .divisionByZero ∧
    Watcher.average_elapsed ⟨2, 6, 4, 0, 2⟩ = .ok 3 := by
  refine ⟨(C10_average_accessors ⟨0, 0, 0, 0⟩ ⟨0, 0, 0, 0, 0⟩).1 rfl, ?_,
    (C10_average_accessors ⟨0, 0, 0, 0⟩ ⟨0, 0, 0, 0, 0⟩).2.2.1 rfl, ?_⟩
  · have := (C10_average_accessors ⟨1, 2, 6, 0⟩ ⟨0, 0, 0, 0, 0⟩).2.1
      (by norm_num)
    rw [this]
    norm_num
  · have := (C10_average_accessors ⟨0, 0, 0, 0⟩ ⟨2, 6, 4, 0, 2⟩).2.2.2.1
      (by norm_num)
    rw [this]
    norm_num
